import Mathlib

/-!
Verification development for a small key-value plan store (`src/server.js`):
an Express HTTP service backed by Redis that creates, reads and deletes JSON
"plan" documents, validating them against a schema, normalizing a date field,
and serving conditional reads via an ETag content fingerprint.

The embedding below models:
 * JSON values (`JVal`) with a serializer mirroring `JSON.stringify` and a
   fuel-based recursive-descent `JSON.parse` model, with a proved round trip;
 * the external collaborators the handlers call (`etag`, `moment`, ajv, the
   Redis client) as explicit Lean functions over explicit state;
 * the three route handlers (`POST /v1/plan`, `GET /v1/plan/:id`,
   `DELETE /v1/plan/:id`) together with the readiness middleware, the
   `transformDate` middleware and the `validateSchema` middleware, by direct
   translation of `src/server.js`.
-/

namespace PlanService

/-- JSON values, restricted to the fragment the service manipulates
(JSON numbers are modelled as integers; objects are field lists in
serialization order, as produced by `JSON.parse`). -/
inductive JVal where
  | null : JVal
  | bool (b : Bool) : JVal
  | num (n : Int) : JVal
  | str (s : String) : JVal
  | arr (xs : List JVal) : JVal
  | obj (fields : List (String × JVal)) : JVal
  deriving Repr

/-- Decimal digits of a natural number, most significant first
(the integer formatting used by `JSON.stringify` on integral numbers). -/
def natDigits (n : Nat) : List Char :=
  if h : n < 10 then [Char.ofNat (48 + n)]
  else natDigits (n / 10) ++ [Char.ofNat (48 + n % 10)]
  decreasing_by exact Nat.div_lt_self (by omega) (by omega)

/-- Decimal rendering of an integer, as `JSON.stringify` prints it. -/
def intChars (n : Int) : List Char :=
  if n < 0 then '-' :: natDigits n.natAbs else natDigits n.natAbs

/-- JSON string-body escaping: `JSON.stringify` escapes the quote and the
backslash (the model keeps other characters verbatim). -/
def escChar (c : Char) : List Char :=
  if c = '"' then ['\\', '"']
  else if c = '\\' then ['\\', '\\']
  else [c]

/-- Escape a whole string body. -/
def escBody (cs : List Char) : List Char := cs.flatMap escChar

/-- A JSON string literal: quote, escaped body, quote. -/
def strLit (s : String) : List Char := '"' :: escBody s.data ++ ['"']

mutual
/-- Model of `JSON.stringify` on `JVal` (no whitespace, fields in order). -/
def stringifyV : JVal → List Char
  | .num n => intChars n
  | .str s => strLit s
  | .bool b => if b then ['t', 'r', 'u', 'e'] else ['f', 'a', 'l', 's', 'e']
  | .null => ['n', 'u', 'l', 'l']
  | .arr [] => ['[', ']']
  | .arr (x :: xs) => '[' :: (stringifyItems x xs ++ [']'])
  | .obj [] => ['{', '}']
  | .obj (f :: fs) => '{' :: (stringifyFields f fs ++ ['}'])
termination_by v => sizeOf v
decreasing_by all_goals simp_wf <;> omega

/-- Comma-separated serialization of a non-empty array tail. -/
def stringifyItems : JVal → List JVal → List Char
  | x, [] => stringifyV x
  | x, y :: ys => stringifyV x ++ ',' :: stringifyItems y ys
termination_by x xs => sizeOf x + sizeOf xs
decreasing_by all_goals simp_wf <;> omega

/-- Comma-separated serialization of a non-empty field list. -/
def stringifyFields : (String × JVal) → List (String × JVal) → List Char
  | (k, v), [] => strLit k ++ ':' :: stringifyV v
  | (k, v), f :: fs => (strLit k ++ ':' :: stringifyV v) ++ ',' :: stringifyFields f fs
termination_by f fs => sizeOf f + sizeOf fs
decreasing_by all_goals simp_wf <;> omega
end

/-- `JSON.stringify` producing a `String`, as the handlers use it. -/
def stringifyStr (v : JVal) : String := String.mk (stringifyV v)

/-- Parse a JSON string body up to the closing quote, undoing `escChar`;
returns the decoded characters and the remaining input. -/
def parseStrBody : List Char → Option (List Char × List Char)
  | [] => none
  | c :: rest =>
    if c = '"' then some ([], rest)
    else if c = '\\' then
      match rest with
      | [] => none
      | c2 :: rest2 =>
        if c2 = '"' ∨ c2 = '\\' then
          match parseStrBody rest2 with
          | some (s, r) => some (c2 :: s, r)
          | none => none
        else none
    else
      match parseStrBody rest with
      | some (s, r) => some (c :: s, r)
      | none => none

/-- Greedily consume decimal digits, extending the accumulator. -/
def parseDigits : List Char → Nat → Nat × List Char
  | c :: rest, acc =>
    if c.isDigit then parseDigits rest (10 * acc + (c.toNat - 48)) else (acc, c :: rest)
  | [], acc => (acc, [])

mutual
/-- Fuel-based recursive-descent model of `JSON.parse` on the serialized
fragment (no interior whitespace, integral numbers): returns the parsed value
and the remaining input. -/
def parseV : Nat → List Char → Option (JVal × List Char)
  | 0, _ => none
  | _ + 1, [] => none
  | fuel + 1, c :: rest =>
    if c = 'n' then
      if rest.take 3 = ['u', 'l', 'l'] then some (.null, rest.drop 3) else none
    else if c = 't' then
      if rest.take 3 = ['r', 'u', 'e'] then some (.bool true, rest.drop 3) else none
    else if c = 'f' then
      if rest.take 4 = ['a', 'l', 's', 'e'] then some (.bool false, rest.drop 4) else none
    else if c = '"' then
      match parseStrBody rest with
      | some (s, r) => some (.str (String.mk s), r)
      | none => none
    else if c = '[' then
      if rest.head? = some ']' then some (.arr [], rest.tail)
      else
        match parseItems fuel rest with
        | some (xs, r) => some (.arr xs, r)
        | none => none
    else if c = '{' then
      if rest.head? = some '}' then some (.obj [], rest.tail)
      else
        match parseFields fuel rest with
        | some (fs, r) => some (.obj fs, r)
        | none => none
    else if c = '-' then
      if (rest.head?.map Char.isDigit).getD false then
        some (.num (-((parseDigits rest 0).1 : Int)), (parseDigits rest 0).2)
      else none
    else if c.isDigit then
      some (.num ((parseDigits (c :: rest) 0).1 : Int), (parseDigits (c :: rest) 0).2)
    else none

/-- Parse one or more comma-separated array items up to the closing bracket. -/
def parseItems : Nat → List Char → Option (List JVal × List Char)
  | 0, _ => none
  | fuel + 1, cs =>
    match parseV fuel cs with
    | none => none
    | some (v, r) =>
      match r with
      | ',' :: r2 =>
        match parseItems fuel r2 with
        | some (vs, r3) => some (v :: vs, r3)
        | none => none
      | ']' :: r2 => some ([v], r2)
      | _ => none

/-- Parse one or more comma-separated object fields up to the closing brace. -/
def parseFields : Nat → List Char → Option (List (String × JVal) × List Char)
  | 0, _ => none
  | _ + 1, [] => none
  | fuel + 1, c :: rest =>
    if c = '"' then
      match parseStrBody rest with
      | some (k, r) =>
        match r with
        | ':' :: r2 =>
          match parseV fuel r2 with
          | some (v, r3) =>
            match r3 with
            | ',' :: r4 =>
              match parseFields fuel r4 with
              | some (fs, r5) => some ((String.mk k, v) :: fs, r5)
              | none => none
            | '}' :: r4 => some ([(String.mk k, v)], r4)
            | _ => none
          | none => none
        | _ => none
      | none => none
    else none
end

/-- Model of `JSON.parse` on a whole string: run the descent with ample fuel
and require the input to be fully consumed (`JSON.parse` rejects trailing
garbage by throwing, modelled as `none`). -/
def parseJson (s : String) : Option JVal :=
  match parseV (2 * s.length + 2) s.data with
  | some (v, []) => some v
  | _ => none

/-- The head of the remaining input is not a decimal digit (so greedy number
parsing stops exactly at a serialized number's end). -/
def noDigitHead : List Char → Bool
  | [] => true
  | c :: _ => !c.isDigit

mutual
/-- Fuel sufficient for `parseV` to reparse `stringifyV v`. -/
def fuelV : JVal → Nat
  | .arr [] => 1
  | .arr (x :: xs) => 1 + fuelItems x xs
  | .obj [] => 1
  | .obj (f :: fs) => 1 + fuelFields f fs
  | _ => 1
termination_by v => sizeOf v
decreasing_by all_goals simp_wf <;> omega

/-- Fuel sufficient for `parseItems` on a serialized non-empty array body. -/
def fuelItems : JVal → List JVal → Nat
  | x, [] => 1 + fuelV x
  | x, y :: ys => 1 + fuelV x + fuelItems y ys
termination_by x xs => sizeOf x + sizeOf xs
decreasing_by all_goals simp_wf <;> omega

/-- Fuel sufficient for `parseFields` on a serialized non-empty object body. -/
def fuelFields : (String × JVal) → List (String × JVal) → Nat
  | (_, v), [] => 1 + fuelV v
  | (_, v), f :: fs => 1 + fuelV v + fuelFields f fs
termination_by f fs => sizeOf f + sizeOf fs
decreasing_by all_goals simp_wf <;> omega
end

theorem fuelV_pos (v : JVal) : 1 ≤ fuelV v := by
  cases v with
  | arr xs => cases xs <;> simp [fuelV]
  | obj fs => cases fs <;> simp [fuelV]
  | null => simp [fuelV]
  | bool b => simp [fuelV]
  | num n => simp [fuelV]
  | str s => simp [fuelV]

theorem digit_char_isDigit (n : Nat) (h : n < 10) :
    (Char.ofNat (48 + n)).isDigit = true := by
  interval_cases n <;> decide

theorem digit_char_toNat (n : Nat) (h : n < 10) :
    (Char.ofNat (48 + n)).toNat = 48 + n := by
  interval_cases n <;> decide

theorem isDigit_distinct (c : Char) (h : c.isDigit = true) :
    c ≠ 'n' ∧ c ≠ 't' ∧ c ≠ 'f' ∧ c ≠ '"' ∧ c ≠ '[' ∧ c ≠ '{' ∧ c ≠ '-' ∧
    c ≠ ']' ∧ c ≠ '}' ∧ c ≠ ',' ∧ c ≠ ':' := by
  refine ⟨?_, ?_, ?_, ?_, ?_, ?_, ?_, ?_, ?_, ?_, ?_⟩ <;>
    (rintro rfl; revert h; decide)

theorem natDigits_cons (n : Nat) :
    ∃ d ds, natDigits n = d :: ds ∧ d.isDigit = true := by
  induction n using Nat.strong_induction_on with
  | _ n ih =>
    rw [natDigits]
    by_cases h : n < 10
    · exact ⟨Char.ofNat (48 + n), [], by simp [h], digit_char_isDigit n h⟩
    · obtain ⟨d, ds, hds, hdig⟩ := ih (n / 10) (Nat.div_lt_self (by omega) (by omega))
      exact ⟨d, ds ++ [Char.ofNat (48 + n % 10)], by simp [h, hds], hdig⟩

theorem parseDigits_stop (rest : List Char) (acc : Nat)
    (h : noDigitHead rest = true) : parseDigits rest acc = (acc, rest) := by
  cases rest with
  | nil => simp [parseDigits]
  | cons c t =>
    simp [noDigitHead] at h
    simp [parseDigits, h]

theorem parseDigits_natDigits (n : Nat) : ∀ acc rest,
    parseDigits (natDigits n ++ rest) acc
      = parseDigits rest (acc * 10 ^ (natDigits n).length + n) := by
  induction n using Nat.strong_induction_on with
  | _ n ih =>
    intro acc rest
    rw [natDigits]
    by_cases h : n < 10
    · simp only [h, dite_true, List.cons_append, List.nil_append]
      rw [parseDigits]
      simp [digit_char_isDigit n h, digit_char_toNat n h]
      congr 1
      simp
      ring
    · simp only [h, dite_false, List.append_assoc, List.cons_append, List.nil_append]
      rw [ih (n / 10) (Nat.div_lt_self (by omega) (by omega))]
      rw [parseDigits]
      simp [digit_char_isDigit (n % 10) (by omega), digit_char_toNat (n % 10) (by omega)]
      have hlen : ((natDigits (n / 10)).length + 1) = (natDigits (n / 10) ++ [Char.ofNat (48 + n % 10)]).length := by
        simp
      have harith : 10 * (acc * 10 ^ (natDigits (n / 10)).length + n / 10) + (n % 10)
          = acc * 10 ^ ((natDigits (n / 10)).length + 1) + (10 * (n / 10) + n % 10) := by
        ring
      have hn : 10 * (n / 10) + n % 10 = n := by omega
      rw [harith, hn, hlen]

theorem parseDigits_natDigits_zero (n : Nat) (rest : List Char)
    (h : noDigitHead rest = true) :
    parseDigits (natDigits n ++ rest) 0 = (n, rest) := by
  rw [parseDigits_natDigits]
  simp [parseDigits_stop rest n h]

theorem parseStrBody_escBody (s : List Char) (rest : List Char) :
    parseStrBody (escBody s ++ '"' :: rest) = some (s, rest) := by
  induction s with
  | nil =>
    rw [show escBody [] = [] from rfl, List.nil_append, parseStrBody.eq_def]
    simp
  | cons c t ih =>
    rw [show escBody (c :: t) = escChar c ++ escBody t by simp [escBody]]
    by_cases hq : c = '"'
    · subst hq
      rw [show escChar '"' = ['\\', '"'] from rfl]
      rw [List.cons_append, List.cons_append, parseStrBody.eq_def]
      simp [ih]
    · by_cases hb : c = '\\'
      · subst hb
        rw [show escChar '\\' = ['\\', '\\'] from rfl]
        rw [List.cons_append, List.cons_append, parseStrBody.eq_def]
        simp [ih]
      · rw [show escChar c = [c] by simp [escChar, hq, hb]]
        rw [List.cons_append, List.nil_append, parseStrBody.eq_def]
        simp [hq, hb, ih]

/-- Every serialized value starts with a character that identifies its
dispatch branch and is not a closing bracket. -/
theorem stringifyV_cons (v : JVal) :
    ∃ c cs, stringifyV v = c :: cs ∧ c ≠ ']' ∧ c ≠ '}' := by
  cases v with
  | null => exact ⟨'n', ['u', 'l', 'l'], by simp [stringifyV], by decide, by decide⟩
  | bool b =>
    cases b
    · exact ⟨'f', ['a', 'l', 's', 'e'], by simp [stringifyV], by decide, by decide⟩
    · exact ⟨'t', ['r', 'u', 'e'], by simp [stringifyV], by decide, by decide⟩
  | num n =>
    by_cases hn : n < 0
    · exact ⟨'-', natDigits n.natAbs, by simp [stringifyV, intChars, hn], by decide, by decide⟩
    · obtain ⟨d, ds, hds, hdig⟩ := natDigits_cons n.natAbs
      obtain ⟨_, _, _, _, _, _, _, h1, h2, _, _⟩ := isDigit_distinct d hdig
      exact ⟨d, ds, by simp [stringifyV, intChars, hn, hds], h1, h2⟩
  | str s =>
    exact ⟨'"', escBody s.data ++ ['"'], by simp [stringifyV, strLit], by decide, by decide⟩
  | arr xs =>
    cases xs with
    | nil => exact ⟨'[', [']'], by simp [stringifyV], by decide, by decide⟩
    | cons x xs =>
      exact ⟨'[', stringifyItems x xs ++ [']'], by simp [stringifyV], by decide, by decide⟩
  | obj fs =>
    cases fs with
    | nil => exact ⟨'{', ['}'], by simp [stringifyV], by decide, by decide⟩
    | cons f fs =>
      exact ⟨'{', stringifyFields f fs ++ ['}'], by simp [stringifyV], by decide, by decide⟩


theorem fuelItems_pos (x : JVal) (xs : List JVal) : 1 ≤ fuelItems x xs := by
  cases xs <;> (simp [fuelItems]; try omega)

theorem fuelFields_pos (g : String × JVal) (fs : List (String × JVal)) :
    1 ≤ fuelFields g fs := by
  obtain ⟨k, v⟩ := g
  cases fs <;> (simp [fuelFields]; try omega)

theorem parseRound : ∀ fuel : Nat,
    (∀ v rest, fuelV v ≤ fuel → noDigitHead rest = true →
      parseV fuel (stringifyV v ++ rest) = some (v, rest))
  ∧ (∀ x xs rest, fuelItems x xs ≤ fuel →
      parseItems fuel (stringifyItems x xs ++ ']' :: rest) = some (x :: xs, rest))
  ∧ (∀ k v fs rest, fuelFields (k, v) fs ≤ fuel →
      parseFields fuel (stringifyFields (k, v) fs ++ '}' :: rest) = some ((k, v) :: fs, rest)) := by
  intro fuel
  induction fuel with
  | zero =>
    refine ⟨?_, ?_, ?_⟩
    · intro v rest hf hrest
      have := fuelV_pos v
      omega
    · intro x xs rest hf
      have := fuelItems_pos x xs
      omega
    · intro k v fs rest hf
      have := fuelFields_pos (k, v) fs
      omega
  | succ f ih =>
    obtain ⟨ihV, ihI, ihF⟩ := ih
    refine ⟨?_, ?_, ?_⟩
    · intro v rest hf hrest
      cases v with
      | null =>
        rw [show stringifyV .null = ['n', 'u', 'l', 'l'] by simp [stringifyV]]
        simp [parseV]
      | bool b =>
        cases b
        · rw [show stringifyV (.bool false) = ['f', 'a', 'l', 's', 'e'] by simp [stringifyV]]
          simp [parseV]
        · rw [show stringifyV (.bool true) = ['t', 'r', 'u', 'e'] by simp [stringifyV]]
          simp [parseV]
      | num n =>
        by_cases hn : n < 0
        · rw [show stringifyV (.num n) = '-' :: natDigits n.natAbs by simp [stringifyV, intChars, hn]]
          obtain ⟨d, ds, hds, hdig⟩ := natDigits_cons n.natAbs
          rw [List.cons_append, hds, List.cons_append]
          simp only [parseV]
          simp [hdig]
          rw [show d :: (ds ++ rest) = natDigits n.natAbs ++ rest by rw [hds, List.cons_append]]
          rw [parseDigits_natDigits_zero n.natAbs rest hrest]
          simp [abs_of_nonpos (le_of_lt hn)]
        · rw [show stringifyV (.num n) = natDigits n.natAbs by simp [stringifyV, intChars, hn]]
          obtain ⟨d, ds, hds, hdig⟩ := natDigits_cons n.natAbs
          obtain ⟨d1, d2, d3, d4, d5, d6, d7, _, _, _, _⟩ := isDigit_distinct d hdig
          rw [hds, List.cons_append]
          simp only [parseV, d1, d2, d3, d4, d5, d6, d7, hdig, if_false, if_true, ite_true, ite_false]
          rw [← List.cons_append, ← hds, parseDigits_natDigits_zero n.natAbs rest hrest]
          simp
          omega
      | str s =>
        rw [show stringifyV (.str s) = '"' :: (escBody s.data ++ ['"']) by simp [stringifyV, strLit]]
        rw [List.cons_append, List.append_assoc, List.cons_append, List.nil_append]
        simp [parseV, parseStrBody_escBody s.data rest]
      | arr xs =>
        cases xs with
        | nil =>
          rw [show stringifyV (.arr []) = ['[', ']'] by simp [stringifyV]]
          simp [parseV]
        | cons x xs =>
          rw [show stringifyV (.arr (x :: xs)) = '[' :: (stringifyItems x xs ++ [']']) by simp [stringifyV]]
          rw [List.cons_append, List.append_assoc, List.cons_append, List.nil_append]
          obtain ⟨c0, cs0, hc0, hne1, hne2⟩ := stringifyV_cons x
          have hfx : fuelItems x xs ≤ f := by
            have h1 : fuelV (.arr (x :: xs)) = 1 + fuelItems x xs := by simp [fuelV]
            omega
          have hitems := ihI x xs rest hfx
          have hsi : ∃ tail, stringifyItems x xs = c0 :: tail := by
            cases xs with
            | nil => exact ⟨cs0, by rw [show stringifyItems x [] = stringifyV x by simp [stringifyItems], hc0]⟩
            | cons y ys =>
              refine ⟨cs0 ++ ',' :: stringifyItems y ys, ?_⟩
              rw [show stringifyItems x (y :: ys) = stringifyV x ++ ',' :: stringifyItems y ys by simp [stringifyItems], hc0]
              simp
          obtain ⟨tail, htail⟩ := hsi
          simp only [parseV]
          rw [htail]
          simp only [List.cons_append, List.head?_cons]
          simp [hne1]
          rw [← List.cons_append, ← htail, hitems]
      | obj fs =>
        cases fs with
        | nil =>
          rw [show stringifyV (.obj []) = ['{', '}'] by simp [stringifyV]]
          simp [parseV]
        | cons g fs =>
          obtain ⟨k, v⟩ := g
          rw [show stringifyV (.obj ((k, v) :: fs)) = '{' :: (stringifyFields (k, v) fs ++ ['}']) by simp [stringifyV]]
          rw [List.cons_append, List.append_assoc, List.cons_append, List.nil_append]
          have hfx : fuelFields (k, v) fs ≤ f := by
            have h1 : fuelV (.obj ((k, v) :: fs)) = 1 + fuelFields (k, v) fs := by simp [fuelV]
            omega
          have hflds := ihF k v fs rest hfx
          have hsf : ∃ tail, stringifyFields (k, v) fs = '"' :: tail := by
            cases fs with
            | nil =>
              refine ⟨escBody k.data ++ '"' :: ':' :: stringifyV v, ?_⟩
              rw [show stringifyFields (k, v) [] = strLit k ++ ':' :: stringifyV v by simp [stringifyFields]]
              simp [strLit]
            | cons g gs =>
              refine ⟨escBody k.data ++ '"' :: ':' :: stringifyV v ++ ',' :: stringifyFields g gs, ?_⟩
              rw [show stringifyFields (k, v) (g :: gs) = (strLit k ++ ':' :: stringifyV v) ++ ',' :: stringifyFields g gs by simp [stringifyFields]]
              simp [strLit]
          obtain ⟨tail, htail⟩ := hsf
          simp only [parseV]
          rw [htail]
          simp only [List.cons_append, List.head?_cons]
          simp
          rw [← List.cons_append, ← htail, hflds]
    · intro x xs rest hf
      cases xs with
      | nil =>
        rw [show stringifyItems x [] = stringifyV x by simp [stringifyItems]]
        have hfx : fuelV x ≤ f := by simp [fuelItems] at hf; omega
        simp only [parseItems]
        rw [ihV x (']' :: rest) hfx rfl]
        simp
      | cons y ys =>
        rw [show stringifyItems x (y :: ys) = stringifyV x ++ ',' :: stringifyItems y ys by simp [stringifyItems]]
        rw [List.append_assoc, List.cons_append]
        have hfx : fuelV x ≤ f := by simp [fuelItems] at hf; omega
        have hfy : fuelItems y ys ≤ f := by simp [fuelItems] at hf; omega
        simp only [parseItems]
        rw [ihV x (',' :: (stringifyItems y ys ++ ']' :: rest)) hfx rfl]
        simp only []
        rw [ihI y ys rest hfy]
    · intro k v fs rest hf
      cases fs with
      | nil =>
        rw [show stringifyFields (k, v) [] = strLit k ++ ':' :: stringifyV v by simp [stringifyFields]]
        have hfv : fuelV v ≤ f := by simp [fuelFields] at hf; omega
        rw [show (strLit k ++ ':' :: stringifyV v) ++ '}' :: rest
            = '"' :: (escBody k.data ++ '"' :: (':' :: (stringifyV v ++ '}' :: rest))) by
          simp [strLit]]
        simp only [parseFields]
        rw [parseStrBody_escBody k.data (':' :: (stringifyV v ++ '}' :: rest))]
        simp only []
        rw [ihV v ('}' :: rest) hfv rfl]
        simp
      | cons g gs =>
        obtain ⟨k2, v2⟩ := g
        rw [show stringifyFields (k, v) ((k2, v2) :: gs)
            = (strLit k ++ ':' :: stringifyV v) ++ ',' :: stringifyFields (k2, v2) gs by simp [stringifyFields]]
        have hfv : fuelV v ≤ f := by simp [fuelFields] at hf; omega
        have hfg : fuelFields (k2, v2) gs ≤ f := by simp [fuelFields] at hf; omega
        rw [show ((strLit k ++ ':' :: stringifyV v) ++ ',' :: stringifyFields (k2, v2) gs) ++ '}' :: rest
            = '"' :: (escBody k.data ++ '"' :: (':' :: (stringifyV v ++ ',' :: (stringifyFields (k2, v2) gs ++ '}' :: rest)))) by
          simp [strLit]]
        simp only [parseFields]
        rw [parseStrBody_escBody k.data (':' :: (stringifyV v ++ ',' :: (stringifyFields (k2, v2) gs ++ '}' :: rest)))]
        simp only []
        rw [ihV v (',' :: (stringifyFields (k2, v2) gs ++ '}' :: rest)) hfv rfl]
        simp only []
        rw [ihF k2 v2 gs rest hfg]
        simp


theorem sizeOf_JVal_pos (v : JVal) : 1 ≤ sizeOf v := by
  cases v <;> (simp; try omega)

theorem fuelBound : ∀ n : Nat,
    (∀ v : JVal, sizeOf v ≤ n → fuelV v ≤ 2 * (stringifyV v).length)
  ∧ (∀ (x : JVal) (xs : List JVal), sizeOf x + sizeOf xs ≤ n →
      fuelItems x xs ≤ 2 * (stringifyItems x xs).length + 1)
  ∧ (∀ (k : String) (v : JVal) (fs : List (String × JVal)), sizeOf v + sizeOf fs ≤ n →
      fuelFields (k, v) fs ≤ 2 * (stringifyFields (k, v) fs).length + 1) := by
  intro n
  induction n with
  | zero =>
    refine ⟨?_, ?_, ?_⟩
    · intro v h
      have := sizeOf_JVal_pos v
      omega
    · intro x xs h
      have := sizeOf_JVal_pos x
      omega
    · intro k v fs h
      have := sizeOf_JVal_pos v
      omega
  | succ n ih =>
    obtain ⟨ihV, ihI, ihF⟩ := ih
    refine ⟨?_, ?_, ?_⟩
    · intro v hn
      cases v with
      | null => simp [fuelV, stringifyV]
      | bool b => cases b <;> simp [fuelV, stringifyV]
      | num m =>
        have h1 : 1 ≤ (intChars m).length := by
          obtain ⟨d, ds, hds, _⟩ := natDigits_cons m.natAbs
          by_cases hm : m < 0 <;> simp [intChars, hm, hds]
        simp only [fuelV, stringifyV]
        omega
      | str s =>
        simp [fuelV, stringifyV, strLit]
        omega
      | arr xs =>
        cases xs with
        | nil => simp [fuelV, stringifyV]
        | cons x xs =>
          have hx : sizeOf x + sizeOf xs ≤ n := by
            have : sizeOf (JVal.arr (x :: xs)) = 1 + (1 + sizeOf x + sizeOf xs) := by simp
            omega
          have := ihI x xs hx
          simp only [fuelV, stringifyV]
          simp
          omega
      | obj fs =>
        cases fs with
        | nil => simp [fuelV, stringifyV]
        | cons g fs =>
          obtain ⟨k, v⟩ := g
          have hx : sizeOf v + sizeOf fs ≤ n := by
            have : sizeOf (JVal.obj ((k, v) :: fs)) = 1 + (1 + (1 + sizeOf k + sizeOf v) + sizeOf fs) := by simp
            omega
          have := ihF k v fs hx
          simp only [fuelV, stringifyV]
          simp
          omega
    · intro x xs hn
      cases xs with
      | nil =>
        have hx : sizeOf x ≤ n := by
          have := sizeOf_JVal_pos x
          simp at hn
          omega
        have := ihV x hx
        simp only [fuelItems, stringifyItems]
        omega
      | cons y ys =>
        have hx : sizeOf x ≤ n := by simp at hn; omega
        have hy : sizeOf y + sizeOf ys ≤ n := by simp at hn; omega
        have h1 := ihV x hx
        have h2 := ihI y ys hy
        simp only [fuelItems, stringifyItems]
        simp
        omega
    · intro k v fs hn
      cases fs with
      | nil =>
        have hv : sizeOf v ≤ n := by simp at hn; omega
        have := ihV v hv
        simp only [fuelFields, stringifyFields]
        simp
        omega
      | cons g gs =>
        obtain ⟨k2, v2⟩ := g
        have hv : sizeOf v ≤ n := by simp at hn; omega
        have hg : sizeOf v2 + sizeOf gs ≤ n := by simp at hn; omega
        have h1 := ihV v hv
        have h2 := ihF k2 v2 gs hg
        simp only [fuelFields, stringifyFields]
        simp
        omega

/-- The serializer and the parser model form a round trip: `JSON.parse`
recovers exactly the document that `JSON.stringify` produced. -/
theorem parseJson_stringifyStr (v : JVal) : parseJson (stringifyStr v) = some v := by
  have hb := ((fuelBound (sizeOf v)).1) v (le_refl _)
  have hlen : (stringifyStr v).length = (stringifyV v).length := rfl
  have hdata : (stringifyStr v).data = stringifyV v := rfl
  have hfuel : fuelV v ≤ 2 * (stringifyStr v).length + 2 := by omega
  have h := (parseRound (2 * (stringifyStr v).length + 2)).1 v [] hfuel rfl
  rw [List.append_nil] at h
  rw [parseJson, hdata, h]

/-! ### JavaScript object and truthiness helpers -/

/-- Look a field up in an object's field list (first binding wins, as in a
JavaScript object, whose keys are unique). -/
def lookupField : List (String × JVal) → String → Option JVal
  | [], _ => none
  | (k, v) :: fs, key => if k = key then some v else lookupField fs key

/-- `obj.field` access: `none` when the receiver is not an object or the
field is missing (JavaScript `undefined`). -/
def getField : JVal → String → Option JVal
  | .obj fs, key => lookupField fs key
  | _, _ => none

/-- Property assignment on a field list: overwrite the existing binding in
place, or append a new property at the end as JavaScript does. -/
def setFieldList : List (String × JVal) → String → JVal → List (String × JVal)
  | [], key, v => [(key, v)]
  | (k, w) :: fs, key, v =>
    if k = key then (k, v) :: fs else (k, w) :: setFieldList fs key v

/-- `obj.field = v`: assignment on a non-object primitive is a silent no-op
(non-strict mode JavaScript). -/
def setField : JVal → String → JVal → JVal
  | .obj fs, key, v => .obj (setFieldList fs key v)
  | x, _, _ => x

/-- JavaScript truthiness of `obj.field` (`undefined`, `null`, `false`, `0`
and the empty string are falsy; any object or array is truthy). -/
def jsTruthy : Option JVal → Bool
  | none => false
  | some .null => false
  | some (.bool b) => b
  | some (.num n) => if n = 0 then false else true
  | some (.str s) => !s.isEmpty
  | some (.arr _) => true
  | some (.obj _) => true

/-- JavaScript `String(v)` coercion. The handlers only ever rely on the fact
that the result is a string; the exact rendering of non-string values is a
coarse model of the JavaScript rules. -/
def jsToString : JVal → String
  | .str s => s
  | .num n => String.mk (intChars n)
  | .bool true => "true"
  | .bool false => "false"
  | .null => "null"
  | .arr _ => ""
  | .obj _ => "[object Object]"

/-! ### External collaborator models: moment, ajv, etag -/

/-- Numeric value of a decimal digit character. -/
def digitVal (c : Char) : Nat := c.toNat - 48

/-- Days in a month of the (proleptic) Gregorian calendar, the rule moment
applies when checking a parsed date for day-of-month overflow. -/
def daysInMonth (mon year : Nat) : Nat :=
  if mon = 2 then
    if year % 4 = 0 && (!(year % 100 = 0) || year % 400 = 0) then 29 else 28
  else if mon = 4 || mon = 6 || mon = 9 || mon = 11 then 30
  else 31

/-- moment's validity check for a two-digit-day, two-digit-month,
four-digit-year candidate: every part a digit, the month between 1 and 12,
and the day between 1 and the month's length (moment marks the parse
invalid on any range overflow, e.g. `31-02-2023`). -/
def validDMY (d1 d2 m1 m2 y1 y2 y3 y4 : Char) : Bool :=
  d1.isDigit && d2.isDigit && m1.isDigit && m2.isDigit &&
  y1.isDigit && y2.isDigit && y3.isDigit && y4.isDigit &&
  (let day := 10 * digitVal d1 + digitVal d2
   let mon := 10 * digitVal m1 + digitVal m2
   let year := 1000 * digitVal y1 + 100 * digitVal y2 + 10 * digitVal y3 + digitVal y4
   decide (1 ≤ day) && decide (1 ≤ mon) && decide (mon ≤ 12) &&
   decide (day ≤ daysInMonth mon year))

/-- Model of the external call
`moment(s, 'DD-MM-YYYY').format('YYYY-MM-DD')`: a strict two-digit-day,
two-digit-month, four-digit-year string forming a valid calendar date is
rewritten to year-month-day; on any other input the model returns the
moment library's failure rendering `"Invalid date"` (moment rejects both
non-digit shapes and out-of-range date parts). The real library also parses
some laxer shapes; the claims only exercise the strict shape, and for
non-date inputs only the fact that `.format` returns some string is used. -/
def momentFormatDMYtoYMD (s : String) : String :=
  match s.data with
  | [d1, d2, '-', m1, m2, '-', y1, y2, y3, y4] =>
    if validDMY d1 d2 m1 m2 y1 y2 y3 y4 then
      String.mk [y1, y2, y3, y4, '-', m1, m2, '-', d1, d2]
    else "Invalid date"
  | _ => "Invalid date"

/-- The `transformDate` middleware of `src/server.js`: when
`req.body.creationDate` is truthy it is replaced in place by
`moment(req.body.creationDate, 'DD-MM-YYYY').format('YYYY-MM-DD')`
(always a string); otherwise the body is left untouched. -/
def transformDate (body : JVal) : JVal :=
  if jsTruthy (getField body "creationDate") then
    setField body "creationDate"
      (.str (momentFormatDMYtoYMD (jsToString ((getField body "creationDate").getD .null))))
  else body

/-- Primitive JSON-schema types, as ajv checks them. -/
inductive JType where
  | string : JType
  | number : JType
  | boolean : JType
  | object : JType
  | array : JType
  deriving Repr

/-- ajv type-keyword check. -/
def hasType : JVal → JType → Bool
  | .str _, .string => true
  | .num _, .number => true
  | .bool _, .boolean => true
  | .obj _, .object => true
  | .arr _, .array => true
  | _, _ => false

/-- Rendering of a type for ajv's `must be <type>` messages. -/
def typeName : JType → String
  | .string => "string"
  | .number => "number"
  | .boolean => "boolean"
  | .object => "object"
  | .array => "array"

/-- One property of an object schema. -/
structure FieldSchema where
  fieldName : String
  ty : JType

/-- An object schema: typed properties plus the required-property list
(additional properties are allowed, ajv's default). -/
structure ObjSchema where
  properties : List FieldSchema
  required : List String

/-- A structured validation error, as ajv reports them
(instance path plus message). -/
structure VError where
  instancePath : String
  message : String
  deriving Repr

/-- Model of ajv validation for an object schema: the document must be an
object, must contain every required property, and every schema-typed
property that is present must have its declared type. Returns the
structured error list (empty exactly when the document is valid). -/
def validateDoc (schema : ObjSchema) (doc : JVal) : List VError :=
  match doc with
  | .obj fs =>
    (schema.required.filterMap fun r =>
      if (lookupField fs r).isSome then none
      else some ⟨"", "must have required property " ++ r⟩)
    ++ (schema.properties.filterMap fun p =>
      match lookupField fs p.fieldName with
      | some v =>
        if hasType v p.ty then none
        else some ⟨"/" ++ p.fieldName, "must be " ++ typeName p.ty⟩
      | none => none)
  | _ => [⟨"", "must be object"⟩]

/-- Modelled from the spec: `src/schema.js` (required by `src/server.js` as
the fixed plan schema compiled by ajv) is not among the sources. Per the
spec's data model, `objectId` and `creationDate` are the required string
attributes and further domain fields (the example uses `plan`) are
validated structurally; string-format constraints beyond the type checks
are not modelled since the schema contents are unspecified. -/
def planSchema : ObjSchema :=
  { properties := [⟨"objectId", .string⟩, ⟨"creationDate", .string⟩, ⟨"plan", .string⟩]
    required := ["objectId", "creationDate"] }

/-- A simple rolling hash of the entity bytes, standing in for the content
hash inside the external `etag` library. -/
def hashChars (cs : List Char) : Nat :=
  cs.foldl (fun a c => (a * 31 + c.toNat) % 1000000007) 7

/-- Model of the external `etag` library: a deterministic fingerprint
computed purely from the entity string (length and content hash, quoted,
mirroring the library's `"len-hash"` shape). The handlers rely only on it
being a pure deterministic function of the stored bytes. -/
def etagFn (s : String) : String :=
  String.mk ('"' :: (natDigits s.length ++ '-' :: natDigits (hashChars s.data)) ++ ['"'])

/-! ### Redis client model and route handlers -/

/-- A thrown JavaScript exception (storage-engine failure, or a library call
throwing); the route handlers' `catch` blocks absorb exactly these. -/
inductive JsError where
  | thrown : JsError

/-- The Redis client as the handlers see it: a readiness flag (checked by
the connection middleware), a failure flag modelling an unavailable or
erroring storage engine, and the key-value store contents. -/
structure RedisClient where
  isReady : Bool
  failing : Bool
  data : String → Option String

/-- `client.set(key, value)`: unconditional write, or a thrown error when
the engine is failing. -/
def redisSet (c : RedisClient) (k v : String) : Except JsError RedisClient :=
  if c.failing then .error .thrown
  else .ok { c with data := fun q => if q = k then some v else c.data q }

/-- `client.get(key)`: the stored string or `none` (Redis `nil`). -/
def redisGet (c : RedisClient) (k : String) : Except JsError (Option String) :=
  if c.failing then .error .thrown else .ok (c.data k)

/-- `client.del(key)`: removes the key, returning the number of keys
removed (0 or 1). -/
def redisDel (c : RedisClient) (k : String) : Except JsError (Nat × RedisClient) :=
  if c.failing then .error .thrown
  else .ok (if (c.data k).isSome then 1 else 0,
            { c with data := fun q => if q = k then none else c.data q })

/-- An HTTP response as the handlers build it: status code, the `ETag`
header if one was set, and the JSON body (`none` for `res.end()`). -/
structure Response where
  status : Nat
  etagHeader : Option String
  body : Option JVal

/-- `{ error: msg }` response body. -/
def errBody (msg : String) : JVal := .obj [("error", .str msg)]

/-- `{ message: msg }` response body. -/
def msgBody (msg : String) : JVal := .obj [("message", .str msg)]

/-- A structured ajv error as JSON. -/
def encodeVError (e : VError) : JVal :=
  .obj [("instancePath", .str e.instancePath), ("message", .str e.message)]

/-- The 400 body of the `validateSchema` middleware:
`{ message: "Validation failed", errors: validate.errors }`. -/
def validationBody (errs : List VError) : JVal :=
  .obj [("message", .str "Validation failed"), ("errors", .arr (errs.map encodeVError))]

/-- The 500 response of the readiness middleware
(`Redis client is not connected`). -/
def notConnectedResp : Response :=
  { status := 500, etagHeader := none, body := some (errBody "Redis client is not connected") }

/-- The `try` body of the `POST /v1/plan` handler: stringify the body, check
`objectId` truthiness, `set`, re-`get`, compute the etag of the re-fetched
bytes, respond 201 with the parsed re-fetched document. Any storage failure,
a `get` returning nil (making `etag(null)` throw), an unparseable re-fetched
value (`JSON.parse` throwing) or a non-string truthy `objectId` (the client
rejects non-string keys) surfaces as a thrown error for the `catch`. -/
def postHandler (c : RedisClient) (body : JVal) : Except JsError (RedisClient × Response) :=
  let requestBodyString := stringifyStr body
  let oid := getField body "objectId"
  if jsTruthy oid then
    match oid with
    | some (.str objectId) =>
      (redisSet c objectId requestBodyString).bind fun c2 =>
      (redisGet c2 objectId).bind fun dataString? =>
      match dataString? with
      | some dataString =>
        match parseJson dataString with
        | some doc =>
          .ok (c2, { status := 201, etagHeader := some (etagFn dataString), body := some doc })
        | none => .error .thrown
      | none => .error .thrown
    | _ => .error .thrown
  else
    .ok (c, { status := 400, etagHeader := none,
              body := some (msgBody "Missing objectId in the request body.") })

/-- The `POST /v1/plan` pipeline from the `validateSchema(planSchema)`
middleware on: reject with 400 and the structured error list when
validation fails, otherwise run the handler with its `catch` mapping any
thrown error to a 500 `Error creating plan` response. -/
def postValidateAndHandle (c : RedisClient) (body : JVal) : RedisClient × Response :=
  let errs := validateDoc planSchema body
  if errs.isEmpty then
    match postHandler c body with
    | .ok r => r
    | .error _ =>
      (c, { status := 500, etagHeader := none, body := some (errBody "Error creating plan") })
  else
    (c, { status := 400, etagHeader := none, body := some (validationBody errs) })

/-- `POST /v1/plan`: readiness middleware, then `transformDate` strictly
before schema validation, then the validating pipeline and handler. -/
def postPlan (c : RedisClient) (rawBody : JVal) : RedisClient × Response :=
  if c.isReady then postValidateAndHandle c (transformDate rawBody)
  else (c, notConnectedResp)

/-- `GET /v1/plan/:id`: readiness middleware, then `get`; a falsy stored
value (nil, or the empty string) yields 404; otherwise the etag of the
stored bytes is computed and compared with `If-None-Match` by exact string
equality (304 with no body and no `ETag` header on a match), else 200 with
the parsed document and the `ETag` header. The `catch` maps a storage
failure or a `JSON.parse` throw to 500. -/
def getPlan (c : RedisClient) (id : String) (ifNoneMatch : Option String) :
    RedisClient × Response :=
  if c.isReady then
    match redisGet c id with
    | .error _ =>
      (c, { status := 500, etagHeader := none, body := some (errBody "Error retrieving plan") })
    | .ok none =>
      (c, { status := 404, etagHeader := none, body := some (errBody "Plan not found") })
    | .ok (some dataString) =>
      if dataString.isEmpty then
        (c, { status := 404, etagHeader := none, body := some (errBody "Plan not found") })
      else
        let etagHeader := etagFn dataString
        if ifNoneMatch = some etagHeader then
          (c, { status := 304, etagHeader := none, body := none })
        else
          match parseJson dataString with
          | some doc =>
            (c, { status := 200, etagHeader := some etagHeader, body := some doc })
          | none =>
            (c, { status := 500, etagHeader := none,
                  body := some (errBody "Error retrieving plan") })
  else (c, notConnectedResp)

/-- `DELETE /v1/plan/:id`: readiness middleware, then `del`; a removed-key
count of 0 yields 404, otherwise 200 with a confirmation message; the
`catch` maps a storage failure to 500. -/
def deletePlan (c : RedisClient) (id : String) : RedisClient × Response :=
  if c.isReady then
    match redisDel c id with
    | .error _ =>
      (c, { status := 500, etagHeader := none, body := some (errBody "Error deleting plan") })
    | .ok (result, c2) =>
      if result = 0 then
        (c2, { status := 404, etagHeader := none, body := some (errBody "Plan not found") })
      else
        (c2, { status := 200, etagHeader := none,
               body := some (msgBody "Plan deleted successfully") })
  else (c, notConnectedResp)


theorem stringifyStr_ne_empty (v : JVal) : ¬ stringifyStr v = "" := by
  obtain ⟨c, cs, hc, -, -⟩ := stringifyV_cons v
  intro h
  rw [stringifyStr, hc] at h
  have : (String.mk (c :: cs)).data = ("" : String).data := by rw [h]
  simp at this

theorem stringifyStr_isEmpty (v : JVal) : (stringifyStr v).isEmpty = false := by
  by_cases h : (stringifyStr v).isEmpty
  · exact absurd ((String.isEmpty_iff _).1 h) (stringifyStr_ne_empty v)
  · simpa using h

theorem lookupField_setFieldList_self (fs : List (String × JVal)) (k : String) (v : JVal) :
    lookupField (setFieldList fs k v) k = some v := by
  induction fs with
  | nil => simp [setFieldList, lookupField]
  | cons g gs ih =>
    obtain ⟨k2, w⟩ := g
    by_cases hk : k2 = k
    · subst hk
      simp [setFieldList, lookupField]
    · simp [setFieldList, lookupField, hk, ih]

theorem lookupField_setFieldList_ne (fs : List (String × JVal)) (k k2 : String) (v : JVal)
    (h : ¬ k2 = k) : lookupField (setFieldList fs k v) k2 = lookupField fs k2 := by
  have h2 : ¬ k = k2 := fun hh => h hh.symm
  induction fs with
  | nil => simp [setFieldList, lookupField, h2]
  | cons g gs ih =>
    obtain ⟨k3, w⟩ := g
    by_cases hk : k3 = k
    · subst hk
      simp [setFieldList, lookupField, h2]
    · simp [setFieldList, lookupField, hk, ih]

theorem getField_setField_ne (d : JVal) (k k2 : String) (v : JVal) (h : ¬ k2 = k) :
    getField (setField d k v) k2 = getField d k2 := by
  cases d <;> simp [setField, getField]
  exact lookupField_setFieldList_ne _ k k2 v h

theorem getField_transformDate_ne (d : JVal) (f : String) (h : ¬ f = "creationDate") :
    getField (transformDate d) f = getField d f := by
  rw [transformDate]
  by_cases ht : jsTruthy (getField d "creationDate") = true
  · simp [ht, getField_setField_ne d "creationDate" f _ h]
  · simp at ht
    simp [ht]

theorem transformDate_absent (d : JVal) (h : getField d "creationDate" = none) :
    transformDate d = d := by
  rw [transformDate, h]
  simp [jsTruthy]

/-- A falsy `creationDate` (absent, `null`, `false`, `0` or the empty
string) skips the `if (req.body.creationDate)` guard, so the middleware
leaves the document untouched. -/
theorem transformDate_falsy (d : JVal)
    (h : jsTruthy (getField d "creationDate") = false) :
    transformDate d = d := by
  rw [transformDate, h]
  simp


/-- Normal-form behavior of a successful create: the canonical bytes of the
(already normalized) valid document are stored under its `objectId`,
re-fetched, fingerprinted and decoded back. -/
theorem postPlan_success (c : RedisClient) (raw body : JVal) (oid : String)
    (hready : c.isReady = true) (hfail : c.failing = false)
    (hbody : transformDate raw = body)
    (hvalid : validateDoc planSchema body = [])
    (hoid : getField body "objectId" = some (.str oid))
    (hne : oid.isEmpty = false) :
    postPlan c raw
      = ({ c with data := fun q => if q = oid then some (stringifyStr body) else c.data q },
         { status := 201, etagHeader := some (etagFn (stringifyStr body)),
           body := some body }) := by
  rw [postPlan, if_pos hready, hbody]
  rw [postValidateAndHandle, hvalid]
  simp only [List.isEmpty_nil, if_true]
  rw [postHandler, hoid]
  simp only [jsTruthy, hne, Bool.not_false, if_true]
  rw [redisSet, hfail]
  simp only [Bool.false_eq_true, if_false, Except.bind]
  rw [redisGet]
  simp only [hfail, Bool.false_eq_true, if_false]
  simp [parseJson_stringifyStr]

theorem getPlan_absent (c : RedisClient) (k : String) (t : Option String)
    (hready : c.isReady = true) (hfail : c.failing = false)
    (h : c.data k = none) :
    getPlan c k t
      = (c, { status := 404, etagHeader := none, body := some (errBody "Plan not found") }) := by
  rw [getPlan, hready]
  simp only [if_true]
  rw [redisGet, hfail]
  simp [h]

theorem getPlan_found (c : RedisClient) (k : String) (t : Option String) (d : JVal)
    (hready : c.isReady = true) (hfail : c.failing = false)
    (h : c.data k = some (stringifyStr d)) :
    getPlan c k t
      = (c, if t = some (etagFn (stringifyStr d))
            then { status := 304, etagHeader := none, body := none }
            else { status := 200, etagHeader := some (etagFn (stringifyStr d)),
                   body := some d }) := by
  rw [getPlan, hready]
  simp only [if_true]
  rw [redisGet, hfail]
  simp only [Bool.false_eq_true, if_false, h]
  rw [stringifyStr_isEmpty d]
  simp only [Bool.false_eq_true, if_false]
  by_cases ht : t = some (etagFn (stringifyStr d))
  · simp [ht]
  · simp [ht, parseJson_stringifyStr]

theorem deletePlan_present (c : RedisClient) (k : String) (v : String)
    (hready : c.isReady = true) (hfail : c.failing = false)
    (h : c.data k = some v) :
    redisDel c k = .ok (1, { c with data := fun q => if q = k then none else c.data q }) ∧
    deletePlan c k
      = ({ c with data := fun q => if q = k then none else c.data q },
         { status := 200, etagHeader := none,
           body := some (msgBody "Plan deleted successfully") }) := by
  constructor
  · rw [redisDel, hfail]
    simp [h]
  · rw [deletePlan, if_pos hready]
    rw [redisDel, hfail]
    simp [h]

theorem deletePlan_absent (c : RedisClient) (k : String)
    (hready : c.isReady = true) (hfail : c.failing = false)
    (h : c.data k = none) :
    (∃ c2, redisDel c k = .ok (0, c2) ∧ (∀ q, c2.data q = c.data q) ∧
      deletePlan c k
        = (c2, { status := 404, etagHeader := none,
                 body := some (errBody "Plan not found") })) := by
  refine ⟨{ c with data := fun q => if q = k then none else c.data q }, ?_, ?_, ?_⟩
  · rw [redisDel, hfail]
    simp [h]
  · intro q
    by_cases hq : q = k
    · subst hq
      simp [h]
    · simp [hq]
  · rw [deletePlan, if_pos hready]
    rw [redisDel, hfail]
    simp [h]


theorem postPlan_notReady (c : RedisClient) (raw : JVal) (h : c.isReady = false) :
    postPlan c raw = (c, notConnectedResp) := by
  rw [postPlan, h]
  simp

theorem getPlan_notReady (c : RedisClient) (k : String) (t : Option String)
    (h : c.isReady = false) : getPlan c k t = (c, notConnectedResp) := by
  rw [getPlan, h]
  simp

theorem deletePlan_notReady (c : RedisClient) (k : String) (h : c.isReady = false) :
    deletePlan c k = (c, notConnectedResp) := by
  rw [deletePlan, h]
  simp

theorem postPlan_failing (c : RedisClient) (raw body : JVal) (oid : String)
    (hready : c.isReady = true) (hfail : c.failing = true)
    (hbody : transformDate raw = body)
    (hvalid : validateDoc planSchema body = [])
    (hoid : getField body "objectId" = some (.str oid))
    (hne : oid.isEmpty = false) :
    postPlan c raw
      = (c, { status := 500, etagHeader := none,
              body := some (errBody "Error creating plan") }) := by
  rw [postPlan, if_pos hready, hbody]
  rw [postValidateAndHandle, hvalid]
  simp only [List.isEmpty_nil, if_true]
  rw [postHandler, hoid]
  simp only [jsTruthy, hne, Bool.not_false, if_true]
  rw [redisSet, hfail]
  simp [Except.bind]

theorem getPlan_failing (c : RedisClient) (k : String) (t : Option String)
    (hready : c.isReady = true) (hfail : c.failing = true) :
    getPlan c k t
      = (c, { status := 500, etagHeader := none,
              body := some (errBody "Error retrieving plan") }) := by
  rw [getPlan, if_pos hready]
  rw [redisGet, hfail]
  simp

theorem deletePlan_failing (c : RedisClient) (k : String)
    (hready : c.isReady = true) (hfail : c.failing = true) :
    deletePlan c k
      = (c, { status := 500, etagHeader := none,
              body := some (errBody "Error deleting plan") }) := by
  rw [deletePlan, if_pos hready]
  rw [redisDel, hfail]
  simp


theorem validateDoc_missing_required (schema : ObjSchema) (d : JVal) (r : String)
    (hr : r ∈ schema.required) (hnone : getField d r = none) :
    ¬ validateDoc schema d = [] := by
  cases d with
  | obj fs =>
    intro h
    have hmem : (⟨"", "must have required property " ++ r⟩ : VError)
        ∈ validateDoc schema (.obj fs) := by
      rw [validateDoc]
      apply List.mem_append_left
      apply List.mem_filterMap.2
      refine ⟨r, hr, ?_⟩
      simp [getField] at hnone
      simp [hnone]
    rw [h] at hmem
    exact absurd hmem (List.not_mem_nil _)
  | null => intro h; simp [validateDoc] at h
  | bool b => intro h; simp [validateDoc] at h
  | num n => intro h; simp [validateDoc] at h
  | str s => intro h; simp [validateDoc] at h
  | arr xs => intro h; simp [validateDoc] at h

theorem validateDoc_wrong_type (schema : ObjSchema) (d : JVal) (p : FieldSchema)
    (v : JVal) (hp : p ∈ schema.properties) (hv : getField d p.fieldName = some v)
    (ht : hasType v p.ty = false) : ¬ validateDoc schema d = [] := by
  cases d with
  | obj fs =>
    intro h
    have hmem : (⟨"/" ++ p.fieldName, "must be " ++ typeName p.ty⟩ : VError)
        ∈ validateDoc schema (.obj fs) := by
      rw [validateDoc]
      apply List.mem_append_right
      apply List.mem_filterMap.2
      refine ⟨p, hp, ?_⟩
      simp [getField] at hv
      simp [hv, ht]
    rw [h] at hmem
    exact absurd hmem (List.not_mem_nil _)
  | null => simp [getField] at hv
  | bool b => simp [getField] at hv
  | num n => simp [getField] at hv
  | str s => simp [getField] at hv
  | arr xs => simp [getField] at hv

theorem postPlan_invalid (c : RedisClient) (D : JVal) (hready : c.isReady = true)
    (hinvalid : ¬ validateDoc planSchema (transformDate D) = []) :
    postPlan c D
      = (c, { status := 400, etagHeader := none,
              body := some (validationBody (validateDoc planSchema (transformDate D))) }) := by
  rw [postPlan, if_pos hready, postValidateAndHandle]
  have hne : (validateDoc planSchema (transformDate D)).isEmpty = false := by
    cases h : validateDoc planSchema (transformDate D) with
    | nil => exact absurd h hinvalid
    | cons a l => simp
  simp only [hne, Bool.false_eq_true, if_false]


/-- C1. Round-trip: for every valid document D with non-empty `objectId`
(valid meaning the normalized document passes schema validation), `create(D)`
responds 201, and `read(D.objectId)` with no conditional token returns a
document equal to D except with `creationDate` normalized (that is, exactly
`transformDate D`), with a fingerprint equal to the one `create(D)` returned. -/
theorem roundTrip_create_read (c : RedisClient) (D : JVal) (oid : String)
    (hready : c.isReady = true) (hfail : c.failing = false)
    (hoid : getField D "objectId" = some (.str oid))
    (hne : oid.isEmpty = false)
    (hvalid : validateDoc planSchema (transformDate D) = []) :
    (postPlan c D).2.status = 201 ∧
    (getPlan (postPlan c D).1 oid none).2.status = 200 ∧
    (getPlan (postPlan c D).1 oid none).2.body = some (transformDate D) ∧
    (getPlan (postPlan c D).1 oid none).2.etagHeader = (postPlan c D).2.etagHeader ∧
    (postPlan c D).2.etagHeader = some (etagFn (stringifyStr (transformDate D))) := by
  have hoid2 : getField (transformDate D) "objectId" = some (.str oid) := by
    rw [getField_transformDate_ne D "objectId" (by decide)]
    exact hoid
  have hpost := postPlan_success c D (transformDate D) oid hready hfail rfl hvalid hoid2 hne
  rw [hpost]
  have hget := getPlan_found
    { c with data := fun q => if q = oid then some (stringifyStr (transformDate D)) else c.data q }
    oid none (transformDate D) hready hfail (by simp)
  rw [hget]
  simp

/-- C2. Read case analysis: read on an absent key reports 404; read on a
present key (holding the serialized bytes of a stored document) computes the
fingerprint from the stored bytes and, when the supplied token equals that
fingerprint under exact equality, responds 304 with no body; otherwise it
responds 200 with the decoded stored document and the fingerprint in the
`ETag` header. -/
theorem read_case_analysis (c : RedisClient) (k : String) (t : Option String)
    (hready : c.isReady = true) (hfail : c.failing = false) :
    (c.data k = none →
      getPlan c k t
        = (c, { status := 404, etagHeader := none,
                body := some (errBody "Plan not found") })) ∧
    (∀ d : JVal, c.data k = some (stringifyStr d) →
      getPlan c k t
        = (c, if t = some (etagFn (stringifyStr d))
              then { status := 304, etagHeader := none, body := none }
              else { status := 200, etagHeader := some (etagFn (stringifyStr d)),
                     body := some d })) := by
  constructor
  · intro h
    exact getPlan_absent c k t hready hfail h
  · intro d h
    exact getPlan_found c k t d hready hfail h

/-- C3. Create algorithm steps: for a document that passed normalization and
validation with a non-empty `objectId`, create serializes it to canonical
bytes, persists them unconditionally under key = objectId (leaving all other
keys untouched, and regardless of any prior record at that key), computes
the fingerprint from the re-fetched persisted bytes, and responds 201 with
the decoded re-fetched document and the fingerprint as `ETag`. -/
theorem create_steps (c : RedisClient) (D : JVal) (oid : String)
    (hready : c.isReady = true) (hfail : c.failing = false)
    (hoid : getField (transformDate D) "objectId" = some (.str oid))
    (hne : oid.isEmpty = false)
    (hvalid : validateDoc planSchema (transformDate D) = []) :
    (postPlan c D).1.data oid = some (stringifyStr (transformDate D)) ∧
    (∀ q, ¬ q = oid → (postPlan c D).1.data q = c.data q) ∧
    (postPlan c D).2.status = 201 ∧
    (postPlan c D).2.etagHeader = some (etagFn (stringifyStr (transformDate D))) ∧
    (postPlan c D).2.body = parseJson (stringifyStr (transformDate D)) ∧
    (postPlan c D).2.body = some (transformDate D) := by
  have hpost := postPlan_success c D (transformDate D) oid hready hfail rfl hvalid hoid hne
  rw [hpost]
  refine ⟨by simp, ?_, rfl, rfl, ?_, rfl⟩
  · intro q hq
    simp [hq]
  · rw [parseJson_stringifyStr]

/-- C5. Delete semantics: delete on an existing key reports 200 with a
removed-key count of 1 and transitions the key to absent, so a subsequent
read reports 404; delete on a non-existent key reports 404 with a
removed-key count of 0, leaving the store unchanged. -/
theorem delete_semantics (c : RedisClient) (k : String)
    (hready : c.isReady = true) (hfail : c.failing = false) :
    (∀ v, c.data k = some v →
      redisDel c k = .ok (1, (deletePlan c k).1) ∧
      (deletePlan c k).2.status = 200 ∧
      (deletePlan c k).1.data k = none ∧
      (getPlan (deletePlan c k).1 k none).2.status = 404) ∧
    (c.data k = none →
      (deletePlan c k).2.status = 404 ∧
      (∃ c2, redisDel c k = .ok (0, c2)) ∧
      (∀ q, (deletePlan c k).1.data q = c.data q)) := by
  constructor
  · intro v h
    obtain ⟨hdel, hplan⟩ := deletePlan_present c k v hready hfail h
    rw [hplan]
    refine ⟨by rw [hdel], rfl, by simp, ?_⟩
    have hget := getPlan_absent
      { c with data := fun q => if q = k then none else c.data q } k none
      hready hfail (by simp)
    rw [hget]
  · intro h
    obtain ⟨c2, hdel, hdata, hplan⟩ := deletePlan_absent c k hready hfail h
    rw [hplan]
    exact ⟨rfl, ⟨c2, hdel⟩, hdata⟩

/-- C10. Implicit: a read whose `If-None-Match` token equals the computed
fingerprint responds 304 with no `ETag` header and no body, and leaves the
store unchanged (the token is re-sent only on full 200 responses). -/
theorem conditional_304_no_validator (c : RedisClient) (k : String) (d : JVal)
    (hready : c.isReady = true) (hfail : c.failing = false)
    (hstored : c.data k = some (stringifyStr d)) :
    getPlan c k (some (etagFn (stringifyStr d)))
      = (c, { status := 304, etagHeader := none, body := none }) := by
  have hget := getPlan_found c k (some (etagFn (stringifyStr d))) d hready hfail hstored
  rw [hget]
  simp


/-- C6. Overwrite semantics: creating D then D2 under the same `objectId`
leaves exactly the serialization of normalized D2 at that key (full
replacement, no merge), a read then returns D2's normalized document, and no
other key is affected; the store holds at most one record per key. -/
theorem overwrite_semantics (c : RedisClient) (D D2 : JVal) (oid : String)
    (hready : c.isReady = true) (hfail : c.failing = false)
    (hoid1 : getField (transformDate D) "objectId" = some (.str oid))
    (hoid2 : getField (transformDate D2) "objectId" = some (.str oid))
    (hne : oid.isEmpty = false)
    (hvalid1 : validateDoc planSchema (transformDate D) = [])
    (hvalid2 : validateDoc planSchema (transformDate D2) = []) :
    (postPlan (postPlan c D).1 D2).1.data oid
      = some (stringifyStr (transformDate D2)) ∧
    (getPlan (postPlan (postPlan c D).1 D2).1 oid none).2.body
      = some (transformDate D2) ∧
    (∀ q, ¬ q = oid → (postPlan (postPlan c D).1 D2).1.data q = c.data q) := by
  have hpost1 := postPlan_success c D (transformDate D) oid hready hfail rfl hvalid1 hoid1 hne
  rw [hpost1]
  have hpost2 := postPlan_success
    { c with data := fun q => if q = oid then some (stringifyStr (transformDate D)) else c.data q }
    D2 (transformDate D2) oid hready hfail rfl hvalid2 hoid2 hne
  rw [hpost2]
  refine ⟨by simp, ?_, ?_⟩
  · have hget := getPlan_found
      { c with data := fun q => if q = oid then some (stringifyStr (transformDate D2))
                                else if q = oid then some (stringifyStr (transformDate D)) else c.data q }
      oid none (transformDate D2) hready hfail (by simp)
    rw [hget]
    simp
  · intro q hq
    simp [hq]

/-- C7. DateNormalizer contract and ordering: on a write, a `creationDate`
that is present as a well-formed two-digit-day two-digit-month
four-digit-year string forming a valid calendar date (i.e. parseable as a
day-month-year date, including moment's range/overflow check) is rewritten
in place into the corresponding year-month-day string, all other fields
untouched; an absent `creationDate` leaves the document untouched (no field
injected); and the normalization runs strictly before schema validation in
the POST pipeline. -/
theorem date_normalizer_contract (D : JVal) (s : String)
    (d1 d2 m1 m2 y1 y2 y3 y4 : Char)
    (hs : s.data = [d1, d2, '-', m1, m2, '-', y1, y2, y3, y4])
    (hdig : validDMY d1 d2 m1 m2 y1 y2 y3 y4 = true) :
    (getField D "creationDate" = some (.str s) →
      getField (transformDate D) "creationDate"
        = some (.str (String.mk [y1, y2, y3, y4, '-', m1, m2, '-', d1, d2])) ∧
      (∀ f, ¬ f = "creationDate" → getField (transformDate D) f = getField D f)) ∧
    (getField D "creationDate" = none → transformDate D = D) ∧
    (∀ c : RedisClient, c.isReady = true →
      postPlan c D = postValidateAndHandle c (transformDate D)) := by
  refine ⟨?_, transformDate_absent D, ?_⟩
  · intro hpresent
    have hsne : s.isEmpty = false := by
      by_cases h : s.isEmpty
      · have : s = "" := (String.isEmpty_iff _).1 h
        rw [this] at hs
        simp at hs
      · simpa using h
    have hmoment : momentFormatDMYtoYMD s
        = String.mk [y1, y2, y3, y4, '-', m1, m2, '-', d1, d2] := by
      rw [momentFormatDMYtoYMD, hs]
      simp [hdig]
    obtain ⟨fs, rfl⟩ : ∃ fs, D = .obj fs := by
      cases D with
      | obj fs => exact ⟨fs, rfl⟩
      | null => simp [getField] at hpresent
      | bool b => simp [getField] at hpresent
      | num n => simp [getField] at hpresent
      | str s2 => simp [getField] at hpresent
      | arr xs => simp [getField] at hpresent
    constructor
    · rw [transformDate, hpresent]
      simp only [jsTruthy, hsne, Bool.not_false, if_true, Option.getD_some, jsToString]
      rw [hmoment]
      exact lookupField_setFieldList_self fs "creationDate" _
    · intro f hf
      exact getField_transformDate_ne _ f hf
  · intro c hready
    rw [postPlan, if_pos hready]

/-- C8. Idempotent fingerprint: a read does not change the store, its
fingerprint is computed purely from the stored bytes (any client state
agreeing on the stored value at the key produces the identical response), so
repeated reads of an unmodified key return the same fingerprint every time,
and identical bytes yield an identical fingerprint. -/
theorem fingerprint_idempotent (c : RedisClient) (k : String) (d : JVal)
    (hready : c.isReady = true) (hfail : c.failing = false)
    (hstored : c.data k = some (stringifyStr d)) :
    (getPlan c k none).1 = c ∧
    (getPlan c k none).2.etagHeader = some (etagFn (stringifyStr d)) ∧
    (getPlan (getPlan c k none).1 k none).2.etagHeader
      = (getPlan c k none).2.etagHeader ∧
    (∀ c2 : RedisClient, c2.isReady = true → c2.failing = false →
      c2.data k = c.data k → (getPlan c2 k none).2 = (getPlan c k none).2) := by
  have hget := getPlan_found c k none d hready hfail hstored
  have h1 : (getPlan c k none).1 = c := by rw [hget]
  refine ⟨h1, by rw [hget]; simp, by rw [h1], ?_⟩
  intro c2 hr2 hf2 hdata
  have hget2 := getPlan_found c2 k none d hr2 hf2 (by rw [hdata]; exact hstored)
  rw [hget, hget2]

/-- C9. Error containment: when the storage connection is not ready, every
operation fails fast with a 500 and a generic body before touching the
store; when the storage engine fails during an operation, the failure is
caught at the operation boundary and converted to a 500 generic-message
response with the store unchanged, and every operation still returns an
ordinary response (no error escapes). -/
theorem error_containment (c : RedisClient) :
    (c.isReady = false →
      (∀ raw, postPlan c raw = (c, notConnectedResp)) ∧
      (∀ k t, getPlan c k t = (c, notConnectedResp)) ∧
      (∀ k, deletePlan c k = (c, notConnectedResp))) ∧
    (c.isReady = true → c.failing = true →
      (∀ raw oid, getField (transformDate raw) "objectId" = some (.str oid) →
        oid.isEmpty = false →
        validateDoc planSchema (transformDate raw) = [] →
        postPlan c raw
          = (c, { status := 500, etagHeader := none,
                  body := some (errBody "Error creating plan") })) ∧
      (∀ k t, getPlan c k t
          = (c, { status := 500, etagHeader := none,
                  body := some (errBody "Error retrieving plan") })) ∧
      (∀ k, deletePlan c k
          = (c, { status := 500, etagHeader := none,
                  body := some (errBody "Error deleting plan") }))) := by
  constructor
  · intro hnr
    exact ⟨fun raw => postPlan_notReady c raw hnr,
           fun k t => getPlan_notReady c k t hnr,
           fun k => deletePlan_notReady c k hnr⟩
  · intro hready hfail
    refine ⟨?_, fun k t => getPlan_failing c k t hready hfail,
            fun k => deletePlan_failing c k hready hfail⟩
    intro raw oid hoid hne hvalid
    exact postPlan_failing c raw (transformDate raw) oid hready hfail rfl hvalid hoid hne


/-- An initially empty, ready, healthy store for concrete instances. -/
def emptyStore : RedisClient := { isReady := true, failing := false, data := fun _ => none }

/-- A ready client whose connection is not up. -/
def downStore : RedisClient := { isReady := false, failing := false, data := fun _ => none }

/-- A connected client whose storage engine fails during operations. -/
def brokenStore : RedisClient := { isReady := true, failing := true, data := fun _ => none }

/-- The spec's example plan document (creation date still day-month-year). -/
def planDoc : JVal :=
  .obj [("objectId", .str "abc123"), ("creationDate", .str "25-12-2023"),
        ("plan", .str "gold")]

/-- A second plan document under the same `objectId`. -/
def planDoc2 : JVal :=
  .obj [("objectId", .str "abc123"), ("creationDate", .str "01-02-2024"),
        ("plan", .str "silver")]

/-- A ready, healthy client whose store already holds the serialized
normalized example document under its `objectId`. -/
def seededStore : RedisClient :=
  { isReady := true, failing := false
    data := fun q => if q = "abc123" then some (stringifyStr (transformDate planDoc)) else none }

/-- A document whose `creationDate` is present with the wrong type
(a number instead of a string). -/
def wrongTypedDoc : JVal := .obj [("objectId", .str "a"), ("creationDate", .num 7)]

/-- C4 counterexample: `wrongTypedDoc` has a schema-typed field
(`creationDate`) of the wrong type, yet the write is accepted with 201 and
persisted — the date-normalization middleware rewrites any truthy
`creationDate` into a string before validation runs, so the claimed 400 with
an unchanged store does not happen. -/
theorem validation_rejection_counterexample :
    (⟨"creationDate", JType.string⟩ : FieldSchema) ∈ planSchema.properties ∧
    getField wrongTypedDoc "creationDate" = some (.num 7) ∧
    hasType (.num 7) JType.string = false ∧
    (postPlan emptyStore wrongTypedDoc).2.status = 201 ∧
    ¬ (postPlan emptyStore wrongTypedDoc).1.data "a" = none := by
  have htrans : transformDate wrongTypedDoc
      = .obj [("objectId", .str "a"),
              ("creationDate", .str (momentFormatDMYtoYMD (jsToString (.num 7))))] := rfl
  have hpost := postPlan_success emptyStore wrongTypedDoc
    (.obj [("objectId", .str "a"),
           ("creationDate", .str (momentFormatDMYtoYMD (jsToString (.num 7))))])
    "a" rfl rfl htrans rfl rfl rfl
  refine ⟨by simp [planSchema], rfl, rfl, ?_, ?_⟩
  · rw [hpost]
  · rw [hpost]
    simp

/-- C4 (amended). Validation/identifier rejection with write atomicity, for
wrong-typed fields the date normalizer does not rewrite: a write whose
document is missing a required field (in particular one lacking an
`objectId`), or has a wrong-typed field that is either any field other than
`creationDate` or a falsy `creationDate` value (such as `null`, `0`,
`false` — only a *truthy* `creationDate` is rewritten to a string by
normalization before validation), returns 400 with a non-empty structured
error list and leaves the store unchanged. -/
theorem validation_rejection_amended (c : RedisClient) (D : JVal)
    (hready : c.isReady = true)
    (h : (∃ r ∈ planSchema.required, getField D r = none) ∨
         (∃ p ∈ planSchema.properties, ∃ v,
           getField D p.fieldName = some v ∧ hasType v p.ty = false ∧
           (¬ p.fieldName = "creationDate" ∨ jsTruthy (some v) = false))) :
    (postPlan c D).1 = c ∧
    (postPlan c D).2.status = 400 ∧
    ¬ validateDoc planSchema (transformDate D) = [] ∧
    (postPlan c D).2.body
      = some (validationBody (validateDoc planSchema (transformDate D))) := by
  have hinvalid : ¬ validateDoc planSchema (transformDate D) = [] := by
    rcases h with ⟨r, hrmem, hrnone⟩ | ⟨p, hpmem, v, hv, ht, hside⟩
    · have hnone2 : getField (transformDate D) r = none := by
        by_cases hr : r = "creationDate"
        · subst hr
          rw [transformDate_absent D hrnone]
          exact hrnone
        · rw [getField_transformDate_ne D r hr]
          exact hrnone
      exact validateDoc_missing_required planSchema _ r hrmem hnone2
    · have hv2 : getField (transformDate D) p.fieldName = some v := by
        by_cases hpc : p.fieldName = "creationDate"
        · have hfalsy : jsTruthy (getField D "creationDate") = false := by
            rcases hside with hne | hfal
            · exact absurd hpc hne
            · rw [← hpc, hv]
              exact hfal
          rw [transformDate_falsy D hfalsy]
          exact hv
        · rw [getField_transformDate_ne D p.fieldName hpc]
          exact hv
      exact validateDoc_wrong_type planSchema _ p v hpmem hv2 ht
  have hpost := postPlan_invalid c D hready hinvalid
  rw [hpost]
  exact ⟨rfl, rfl, hinvalid, rfl⟩


/-- Witness for C1 at the spec's example document on an empty store. -/
theorem roundTrip_create_read_witness :
    validateDoc planSchema (transformDate planDoc) = [] ∧
    ((postPlan emptyStore planDoc).2.status = 201 ∧
     (getPlan (postPlan emptyStore planDoc).1 "abc123" none).2.status = 200 ∧
     (getPlan (postPlan emptyStore planDoc).1 "abc123" none).2.body
       = some (transformDate planDoc) ∧
     (getPlan (postPlan emptyStore planDoc).1 "abc123" none).2.etagHeader
       = (postPlan emptyStore planDoc).2.etagHeader ∧
     (postPlan emptyStore planDoc).2.etagHeader
       = some (etagFn (stringifyStr (transformDate planDoc)))) :=
  ⟨rfl, roundTrip_create_read emptyStore planDoc "abc123" rfl rfl rfl rfl rfl⟩

/-- Witness for C2 at the seeded store. -/
theorem read_case_analysis_witness :
    seededStore.data "abc123" = some (stringifyStr (transformDate planDoc)) ∧
    ((seededStore.data "abc123" = none →
      getPlan seededStore "abc123" none
        = (seededStore, { status := 404, etagHeader := none,
                          body := some (errBody "Plan not found") })) ∧
     (∀ d : JVal, seededStore.data "abc123" = some (stringifyStr d) →
      getPlan seededStore "abc123" none
        = (seededStore,
           if (none : Option String) = some (etagFn (stringifyStr d))
           then { status := 304, etagHeader := none, body := none }
           else { status := 200, etagHeader := some (etagFn (stringifyStr d)),
                  body := some d }))) :=
  ⟨rfl, read_case_analysis seededStore "abc123" none rfl rfl⟩

/-- Witness for C3 at the spec's example document on an empty store. -/
theorem create_steps_witness :
    getField (transformDate planDoc) "objectId" = some (.str "abc123") ∧
    ((postPlan emptyStore planDoc).1.data "abc123"
       = some (stringifyStr (transformDate planDoc)) ∧
     (∀ q, ¬ q = "abc123" →
       (postPlan emptyStore planDoc).1.data q = emptyStore.data q) ∧
     (postPlan emptyStore planDoc).2.status = 201 ∧
     (postPlan emptyStore planDoc).2.etagHeader
       = some (etagFn (stringifyStr (transformDate planDoc))) ∧
     (postPlan emptyStore planDoc).2.body
       = parseJson (stringifyStr (transformDate planDoc)) ∧
     (postPlan emptyStore planDoc).2.body = some (transformDate planDoc)) :=
  ⟨rfl, create_steps emptyStore planDoc "abc123" rfl rfl rfl rfl rfl⟩

/-- A document lacking the required `objectId`. -/
def noIdDoc : JVal := .obj [("creationDate", .str "25-12-2023")]

/-- A document whose `creationDate` is present, wrong-typed and falsy
(`null`), so the normalization guard skips it and validation rejects it. -/
def falsyDateDoc : JVal := .obj [("objectId", .str "a"), ("creationDate", .null)]

/-- Witness for C4 (amended) at a document lacking `objectId` and at a
document with a falsy wrong-typed `creationDate`. -/
theorem validation_rejection_amended_witness :
    getField noIdDoc "objectId" = none ∧
    ((postPlan emptyStore noIdDoc).1 = emptyStore ∧
     (postPlan emptyStore noIdDoc).2.status = 400 ∧
     ¬ validateDoc planSchema (transformDate noIdDoc) = [] ∧
     (postPlan emptyStore noIdDoc).2.body
       = some (validationBody (validateDoc planSchema (transformDate noIdDoc)))) ∧
    getField falsyDateDoc "creationDate" = some .null ∧
    jsTruthy (some .null) = false ∧
    ((postPlan emptyStore falsyDateDoc).1 = emptyStore ∧
     (postPlan emptyStore falsyDateDoc).2.status = 400 ∧
     ¬ validateDoc planSchema (transformDate falsyDateDoc) = [] ∧
     (postPlan emptyStore falsyDateDoc).2.body
       = some (validationBody (validateDoc planSchema (transformDate falsyDateDoc)))) :=
  ⟨rfl,
   validation_rejection_amended emptyStore noIdDoc rfl
     (Or.inl ⟨"objectId", by simp [planSchema], rfl⟩),
   rfl, rfl,
   validation_rejection_amended emptyStore falsyDateDoc rfl
     (Or.inr ⟨⟨"creationDate", JType.string⟩, by simp [planSchema], .null,
       rfl, rfl, Or.inr rfl⟩)⟩

/-- Witness for C5 at the seeded store and its key. -/
theorem delete_semantics_witness :
    seededStore.data "abc123" = some (stringifyStr (transformDate planDoc)) ∧
    ((∀ v, seededStore.data "abc123" = some v →
      redisDel seededStore "abc123" = .ok (1, (deletePlan seededStore "abc123").1) ∧
      (deletePlan seededStore "abc123").2.status = 200 ∧
      (deletePlan seededStore "abc123").1.data "abc123" = none ∧
      (getPlan (deletePlan seededStore "abc123").1 "abc123" none).2.status = 404) ∧
     (seededStore.data "abc123" = none →
      (deletePlan seededStore "abc123").2.status = 404 ∧
      (∃ c2, redisDel seededStore "abc123" = .ok (0, c2)) ∧
      (∀ q, (deletePlan seededStore "abc123").1.data q = seededStore.data q))) :=
  ⟨rfl, delete_semantics seededStore "abc123" rfl rfl⟩

/-- Witness for C6: the two example documents share `objectId` `abc123`. -/
theorem overwrite_semantics_witness :
    getField (transformDate planDoc2) "objectId" = some (.str "abc123") ∧
    ((postPlan (postPlan emptyStore planDoc).1 planDoc2).1.data "abc123"
       = some (stringifyStr (transformDate planDoc2)) ∧
     (getPlan (postPlan (postPlan emptyStore planDoc).1 planDoc2).1 "abc123" none).2.body
       = some (transformDate planDoc2) ∧
     (∀ q, ¬ q = "abc123" →
       (postPlan (postPlan emptyStore planDoc).1 planDoc2).1.data q
         = emptyStore.data q)) :=
  ⟨rfl, overwrite_semantics emptyStore planDoc planDoc2 "abc123"
    rfl rfl rfl rfl rfl rfl rfl⟩

/-- Witness for C7 at the example date `25-12-2023`. -/
theorem date_normalizer_contract_witness :
    ("25-12-2023" : String).data = ['2', '5', '-', '1', '2', '-', '2', '0', '2', '3'] ∧
    validDMY '2' '5' '1' '2' '2' '0' '2' '3' = true ∧
    ((getField planDoc "creationDate" = some (.str "25-12-2023") →
      getField (transformDate planDoc) "creationDate"
        = some (.str (String.mk ['2', '0', '2', '3', '-', '1', '2', '-', '2', '5'])) ∧
      (∀ f, ¬ f = "creationDate" →
        getField (transformDate planDoc) f = getField planDoc f)) ∧
     (getField planDoc "creationDate" = none → transformDate planDoc = planDoc) ∧
     (∀ c : RedisClient, c.isReady = true →
       postPlan c planDoc = postValidateAndHandle c (transformDate planDoc))) :=
  ⟨rfl, by decide, date_normalizer_contract planDoc "25-12-2023"
    '2' '5' '1' '2' '2' '0' '2' '3' rfl (by decide)⟩

/-- Witness for C8 at the seeded store. -/
theorem fingerprint_idempotent_witness :
    seededStore.data "abc123" = some (stringifyStr (transformDate planDoc)) ∧
    ((getPlan seededStore "abc123" none).1 = seededStore ∧
     (getPlan seededStore "abc123" none).2.etagHeader
       = some (etagFn (stringifyStr (transformDate planDoc))) ∧
     (getPlan (getPlan seededStore "abc123" none).1 "abc123" none).2.etagHeader
       = (getPlan seededStore "abc123" none).2.etagHeader ∧
     (∀ c2 : RedisClient, c2.isReady = true → c2.failing = false →
       c2.data "abc123" = seededStore.data "abc123" →
       (getPlan c2 "abc123" none).2 = (getPlan seededStore "abc123" none).2)) :=
  ⟨rfl, fingerprint_idempotent seededStore "abc123" (transformDate planDoc) rfl rfl rfl⟩

/-- Witness for C9 at a disconnected client and at a failing engine. -/
theorem error_containment_witness :
    postPlan downStore planDoc = (downStore, notConnectedResp) ∧
    getPlan downStore "abc123" none = (downStore, notConnectedResp) ∧
    deletePlan downStore "abc123" = (downStore, notConnectedResp) ∧
    postPlan brokenStore planDoc
      = (brokenStore, { status := 500, etagHeader := none,
                        body := some (errBody "Error creating plan") }) ∧
    getPlan brokenStore "abc123" none
      = (brokenStore, { status := 500, etagHeader := none,
                        body := some (errBody "Error retrieving plan") }) ∧
    deletePlan brokenStore "abc123"
      = (brokenStore, { status := 500, etagHeader := none,
                        body := some (errBody "Error deleting plan") }) :=
  ⟨((error_containment downStore).1 rfl).1 planDoc,
   ((error_containment downStore).1 rfl).2.1 "abc123" none,
   ((error_containment downStore).1 rfl).2.2 "abc123",
   ((error_containment brokenStore).2 rfl rfl).1 planDoc "abc123" rfl rfl rfl,
   ((error_containment brokenStore).2 rfl rfl).2.1 "abc123" none,
   ((error_containment brokenStore).2 rfl rfl).2.2 "abc123"⟩

/-- Witness for C10 at the seeded store with the matching token. -/
theorem conditional_304_no_validator_witness :
    seededStore.data "abc123" = some (stringifyStr (transformDate planDoc)) ∧
    getPlan seededStore "abc123" (some (etagFn (stringifyStr (transformDate planDoc))))
      = (seededStore, { status := 304, etagHeader := none, body := none }) :=
  ⟨rfl, conditional_304_no_validator seededStore "abc123" (transformDate planDoc) rfl rfl rfl⟩

end PlanService
